import Mathlib

/-!
Shallow embedding of the core of the comfyui-sdk repository
(PromptBuilder, ComfyPool job queue and client selection, ComfyApi
streaming/reconnect/activity/destroy logic), together with theorems
settling the specification claims against the code.

JavaScript values touched by the embedded code are modelled by the
inductive `JVal` (plain JSON-like trees without a prototype chain);
machine numbers that the source only uses as non-negative counts are
modelled as `Nat`, timestamps as `Int`, and the backoff arithmetic as
`Rat`.
-/

/-- OS types as in src types/api (POSIX, NT, Unknown). -/
inductive OSType where
  | POSIX
  | NT
  | Unknown
deriving Repr, DecidableEq

/-- tools.ts encodeNTPath: replace every forward slash with a backslash. -/
def encodeNTPath (path : String) : String :=
  ⟨path.data.map (fun c => if c = '/' then '\\' else c)⟩

/-- tools.ts encodePosixPath: replace every backslash with a forward slash. -/
def encodePosixPath (path : String) : String :=
  ⟨path.data.map (fun c => if c = '\\' then '/' else c)⟩

/-- JS String.split on a single-character separator, over the character
list of a string. -/
def splitCharList (sep : Char) : List Char → List (List Char)
  | [] => [[]]
  | c :: rest =>
      let r := splitCharList sep rest
      if c = sep then [] :: r
      else
        match r with
        | [] => [[c]]
        | g :: gs => (c :: g) :: gs

/-- JS path.split of a dotted path string. -/
def splitOnDot (s : String) : List String :=
  (splitCharList '.' s.data).map (fun cs => ⟨cs⟩)

/-- JSON-like values: the shape of workflow objects the PromptBuilder
traverses.  Objects are association lists in property-insertion order. -/
inductive JVal where
  | null
  | bool (b : Bool)
  | num (n : Int)
  | str (s : String)
  | obj (fields : List (String × JVal))
deriving Repr

mutual

/-- Boolean structural equality of `JVal` trees. -/
def JVal.beq : JVal → JVal → Bool
  | .null, .null => true
  | .bool a, .bool c => a == c
  | .num a, .num c => a == c
  | .str a, .str c => a == c
  | .obj fs, .obj gs => JVal.beqList fs gs
  | _, _ => false

/-- Boolean structural equality of object field lists. -/
def JVal.beqList : List (String × JVal) → List (String × JVal) → Bool
  | [], [] => true
  | (k, v) :: r, (k2, v2) :: r2 => k == k2 && JVal.beq v v2 && JVal.beqList r r2
  | _, _ => false

end

mutual

theorem JVal.beq_iff : (a b : JVal) → (JVal.beq a b = true ↔ a = b)
  | .null, b => by cases b <;> simp [JVal.beq]
  | .bool a, b => by cases b <;> simp [JVal.beq]
  | .num a, b => by cases b <;> simp [JVal.beq]
  | .str a, b => by cases b <;> simp [JVal.beq]
  | .obj fs, .null => by simp [JVal.beq]
  | .obj fs, .bool c => by simp [JVal.beq]
  | .obj fs, .num c => by simp [JVal.beq]
  | .obj fs, .str c => by simp [JVal.beq]
  | .obj fs, .obj gs => by simp [JVal.beq, JVal.beqList_iff fs gs]

theorem JVal.beqList_iff : (fs gs : List (String × JVal)) → (JVal.beqList fs gs = true ↔ fs = gs)
  | [], [] => by simp [JVal.beqList]
  | [], (k2, v2) :: r2 => by simp [JVal.beqList]
  | (k, v) :: r, [] => by simp [JVal.beqList]
  | (k, v) :: r, (k2, v2) :: r2 => by
      simp [JVal.beqList, JVal.beq_iff v v2, JVal.beqList_iff r r2, and_assoc]

end

instance : DecidableEq JVal := fun a b =>
  decidable_of_iff (JVal.beq a b = true) (JVal.beq_iff a b)

deriving instance DecidableEq for Except

/-- JavaScript truthiness of a `JVal` (undefined is represented by a
missing key, which callers treat like `null`). -/
def JVal.truthy : JVal → Bool
  | .null => false
  | .bool b => b
  | .num n => n != 0
  | .str s => s != ""
  | .obj _ => true

/-- Association-list lookup, i.e. reading an own property of an object. -/
def getAssoc {α : Type} : List (String × α) → String → Option α
  | [], _ => none
  | (k, v) :: rest, key => if k = key then some v else getAssoc rest key

/-- Association-list update: overwrite the first binding of `key`, or
append a new binding (JS property assignment). -/
def setAssoc {α : Type} : List (String × α) → String → α → List (String × α)
  | [], key, v => [(key, v)]
  | (k, w) :: rest, key, v =>
      if k = key then (k, v) :: rest else (k, w) :: setAssoc rest key v

/-- The write loop of PromptBuilder.input / inputRaw (part_007 lines
193-203 and 233-244): walk the dotted path, replacing a missing or falsy
intermediate by a fresh empty object, and assign the value at the last
segment.  Returns the updated root together with `false` when the walk
assigns a property on a primitive, which throws a TypeError in the
strict-mode source; creations made before the throw persist. -/
def setPathM : JVal → List String → JVal → JVal × Bool
  | v, [], _ => (v, true)
  | v, [k], newV =>
      match v with
      | .obj fs => (.obj (setAssoc fs k newV), true)
      | other => (other, false)
  | v, k :: k2 :: rest, newV =>
      match v with
      | .obj fs =>
          let child :=
            match getAssoc fs k with
            | some c => if c.truthy then c else .obj []
            | none => .obj []
          let r := setPathM child (k2 :: rest) newV
          (.obj (setAssoc fs k r.1), r.2)
      | other => (other, false)

/-- The traversal of inputRaw when the final write is skipped: only the
intermediate creations of the loop happen (part_007 lines 235-241). -/
def ensurePathM : JVal → List String → JVal × Bool
  | v, [] => (v, true)
  | v, k :: rest =>
      match v with
      | .obj fs =>
          let child :=
            match getAssoc fs k with
            | some c => if c.truthy then c else .obj []
            | none => .obj []
          let r := ensurePathM child rest
          (.obj (setAssoc fs k r.1), r.2)
      | other => (other, false)

/-- A binding stored in mapInputKeys: `string | string[]`. -/
inductive Binding where
  | one (s : String)
  | many (ss : List String)
deriving Repr, DecidableEq

/-- PromptBuilder state: the deep-cloned prompt, the input/output key
maps (a registered key may be bound to `undefined`, modelled as `none`),
and the bypassed node list. -/
structure PromptBuilder where
  prompt : JVal
  mapInputKeys : List (String × Option Binding)
  mapOutputKeys : List (String × Option String)
  bypassNodes : List String
deriving Repr, DecidableEq

/-- PromptBuilder constructor (part_007 lines 11-20): structuredClone of
the prompt (a deep copy, so the caller-supplied value can never alias the
internal one) and registration of every key with an undefined binding. -/
def mkPromptBuilder (prompt : JVal) (inputKeys outputKeys : List String) : PromptBuilder :=
  { prompt := prompt
  , mapInputKeys := inputKeys.map (fun k => (k, none))
  , mapOutputKeys := outputKeys.map (fun k => (k, none))
  , bypassNodes := [] }

/-- clone (part_007 lines 27-37) rebuilds a builder with the same prompt
value (re-cloned), the same key maps and a copied bypass list; on the
value level it is the identity. -/
def PromptBuilder.clone (b : PromptBuilder) : PromptBuilder := b

/-- Errors thrown by PromptBuilder methods. -/
inductive JSError where
  | unknownInput (key : String)
  | invalidKey (key : String)
  | typeError
deriving Repr, DecidableEq

/-- Outcome of a PromptBuilder method call on a mutable receiver:
`self` is the receiver's state after the call (JS methods mutate
`this`), `ret` the returned builder or the thrown error. -/
structure MethodResult where
  self : PromptBuilder
  ret : Except JSError PromptBuilder
deriving Repr, DecidableEq

/-- setRawInputNode (part_007 lines 106-109): assigns the binding on the
receiver, then returns a clone of the (already modified) receiver. -/
def PromptBuilder.setRawInputNode (b : PromptBuilder) (input : String) (key : Binding) :
    MethodResult :=
  let b2 := { b with mapInputKeys := setAssoc b.mapInputKeys input (some key) }
  ⟨b2, .ok b2.clone⟩

/-- setInputNode (part_007 lines 95-97) forwards to setRawInputNode. -/
def PromptBuilder.setInputNode (b : PromptBuilder) (input : String) (key : Binding) :
    MethodResult :=
  b.setRawInputNode input key

/-- appendRawInputNode (part_007 lines 118-125): box a string binding
into an array on the receiver, then push the new keys; an undefined
binding short-circuits the optional-chained push, losing the keys. -/
def PromptBuilder.appendRawInputNode (b : PromptBuilder) (input : String) (key : Binding) :
    MethodResult :=
  let keys := match key with | .one s => [s] | .many l => l
  let b2 :=
    match getAssoc b.mapInputKeys input with
    | some (some (.one s)) =>
        { b with mapInputKeys := setAssoc b.mapInputKeys input (some (.many ([s] ++ keys))) }
    | some (some (.many l)) =>
        { b with mapInputKeys := setAssoc b.mapInputKeys input (some (.many (l ++ keys))) }
    | some none => b
    | none => b
  ⟨b2, .ok b2.clone⟩

/-- appendInputNode (part_007 lines 134-136) forwards to
appendRawInputNode. -/
def PromptBuilder.appendInputNode (b : PromptBuilder) (input : String) (key : Binding) :
    MethodResult :=
  b.appendRawInputNode input key

/-- setRawOutputNode (part_007 lines 145-148): assigns on the receiver,
then returns a clone. -/
def PromptBuilder.setRawOutputNode (b : PromptBuilder) (output key : String) : MethodResult :=
  let b2 := { b with mapOutputKeys := setAssoc b.mapOutputKeys output (some key) }
  ⟨b2, .ok b2.clone⟩

/-- setOutputNode (part_007 lines 157-159) forwards to setRawOutputNode. -/
def PromptBuilder.setOutputNode (b : PromptBuilder) (output key : String) : MethodResult :=
  b.setRawOutputNode output key

/-- bypass (part_007 lines 53-60): clones first, then pushes onto the
clone's bypassNodes; the receiver is untouched. -/
def PromptBuilder.bypass (b : PromptBuilder) (nodes : List String) : MethodResult :=
  ⟨b, .ok { b.clone with bypassNodes := b.bypassNodes ++ nodes }⟩

/-- One `splice(indexOf(node), 1)` step of reinstate: removes the first
occurrence of the node, or, when the node is absent (indexOf = -1), the
last element of the list. -/
def spliceRemove (l : List String) (node : String) : List String :=
  if node ∈ l then l.eraseP (fun x => x = node) else l.dropLast

/-- reinstate (part_007 lines 76-86): clones first, then splices each
node out of the clone's bypassNodes; the receiver is untouched. -/
def PromptBuilder.reinstate (b : PromptBuilder) (nodes : List String) : MethodResult :=
  ⟨b, .ok { b.clone with bypassNodes := nodes.foldl spliceRemove b.bypassNodes }⟩

/-- Path-encoding step of input / inputRaw (part_007 lines 177-181,
227-231): applied only when the value is a string. -/
def encodeValue (v : JVal) (encodeOs : Option OSType) : JVal :=
  match encodeOs, v with
  | some .NT, .str s => .str (encodeNTPath s)
  | some .POSIX, .str s => .str (encodePosixPath s)
  | _, v => v

/-- Sequential writes of input over every bound path; a TypeError stops
the loop, keeping the writes already made. -/
def writePaths : JVal → List String → JVal → JVal × Bool
  | p, [], _ => (p, true)
  | p, path :: rest, v =>
      let r := setPathM p (splitOnDot path) v
      if r.2 then writePaths r.1 rest v else (r.1, false)

/-- input (part_007 lines 171-206): an undefined value is a no-op; the
binding is looked up (a missing, undefined or empty-string binding is
falsy and throws Key not found); every bound dotted path is then written
in place on the receiver's prompt, and the receiver itself is returned.
No reserved-name check of any kind is performed. -/
def PromptBuilder.input (b : PromptBuilder) (key : String) (value : Option JVal)
    (encodeOs : Option OSType) : MethodResult :=
  match value with
  | none => ⟨b, .ok b⟩
  | some v0 =>
    let v := encodeValue v0 encodeOs
    let paths? : Option (List String) :=
      match getAssoc b.mapInputKeys key with
      | none => none
      | some none => none
      | some (some (.one s)) => if s = "" then none else some [s]
      | some (some (.many l)) => some l
    match paths? with
    | none => ⟨b, .error (.unknownInput key)⟩
    | some ps =>
      let r := writePaths b.prompt ps v
      let b2 := { b with prompt := r.1 }
      if r.2 then ⟨b2, .ok b2⟩ else ⟨b2, .error .typeError⟩

/-- inputRaw (part_007 lines 218-247): throws Invalid key when the whole
key equals __proto__, constructor or prototype (before anything else);
otherwise it walks the dotted path, silently skipping __proto__ and
constructor segments of the traversal, and silently drops the final
write when the last segment is __proto__ or constructor.  A prototype
segment that is not the whole key is traversed and written like any
other property. -/
def PromptBuilder.inputRaw (b : PromptBuilder) (key : String) (value : Option JVal)
    (encodeOs : Option OSType) : MethodResult :=
  if key = "__proto__" ∨ key = "constructor" ∨ key = "prototype" then
    ⟨b, .error (.invalidKey key)⟩
  else
    match value with
    | none => ⟨b, .ok b⟩
    | some v0 =>
      let v := encodeValue v0 encodeOs
      let keys := splitOnDot key
      let mids := keys.dropLast.filter (fun k => ¬(k = "__proto__" ∨ k = "constructor"))
      let lastK := keys.getLastD ""
      if lastK = "__proto__" ∨ lastK = "constructor" then
        let r := ensurePathM b.prompt mids
        let b2 := { b with prompt := r.1 }
        if r.2 then ⟨b2, .ok b2⟩ else ⟨b2, .error .typeError⟩
      else
        let r := setPathM b.prompt (mids ++ [lastK]) v
        let b2 := { b with prompt := r.1 }
        if r.2 then ⟨b2, .ok b2⟩ else ⟨b2, .error .typeError⟩

/-! ## ComfyPool: weighted job queue (part_009) -/

/-- A queued job item; `tag` stands for the job closure and records
submission identity so that ordering statements can be made. -/
structure JobItem where
  weight : Int
  tag : Nat
deriving Repr, DecidableEq

/-- pushJobByWeight (part_009 lines 507-515): findIndex of the first
item with strictly greater weight, insert there, or push at the end. -/
def pushJobByWeight : List JobItem → JobItem → List JobItem
  | [], item => [item]
  | j :: rest, item =>
      if item.weight < j.weight then item :: j :: rest
      else j :: pushJobByWeight rest item

/-- Queue operations observable on jobQueue: claim-side insertion
(refused without change when the queue is at maxQueueSize, part_009
line 525) and the dispatcher's shift (part_009 lines 592, 611). -/
inductive QOp where
  | push (item : JobItem)
  | shift
deriving Repr, DecidableEq

/-- One queue operation. -/
def applyQOp (maxQueueSize : Nat) (q : List JobItem) : QOp → List JobItem
  | .push item => if maxQueueSize ≤ q.length then q else pushJobByWeight q item
  | .shift => q.tail

/-- A whole history of queue operations starting from the empty queue. -/
def runQOps (maxQueueSize : Nat) (ops : List QOp) : List JobItem :=
  ops.foldl (applyQOp maxQueueSize) []

/-! ## ComfyPool: client state and selection (part_009 lines 543-584) -/

/-- Dispatcher-side state of one client. -/
structure CState where
  id : String
  queueRemaining : Nat
  locked : Bool
  online : Bool
deriving Repr, DecidableEq

/-- Selection modes. -/
inductive EQueueMode where
  | PICK_ZERO
  | PICK_LOWEST
  | PICK_ROUTINE
deriving Repr, DecidableEq

/-- The filter of getAvailableClient (part_009 lines 552-561): offline
clients are dropped; a non-empty includeIds keeps exactly its members
and short-circuits past the excludeIds test; otherwise a non-empty
excludeIds drops its members. -/
def acceptedClients (states : List CState) (includeIds excludeIds : List String) :
    List CState :=
  states.filter fun c =>
    if !c.online then false
    else if !includeIds.isEmpty then includeIds.contains c.id
    else if !excludeIds.isEmpty then !excludeIds.contains c.id
    else true

/-- JS Array.findIndex returning an option (none for -1). -/
def findIdxOpt {α : Type} (p : α → Bool) : List α → Option Nat
  | [] => none
  | a :: t => if p a then some 0 else (findIdxOpt p t).map (· + 1)

/-- First index of the minimum of a list (JS indexOf(Math.min(...l)));
none on the empty list, where Math.min() is Infinity and indexOf
returns -1. -/
def idxOfMin (l : List Nat) : Option Nat :=
  match l.min? with
  | none => none
  | some m => findIdxOpt (fun x => x == m) l

/-- One pass of the selection loop of getAvailableClient (part_009
lines 562-581): compute an index into the accepted list per mode, and
on success look the chosen id up in the full state list (trueIdx), lock
that entry and return it.  `none` models a pass that found nobody, after
which the loop sleeps and retries; with an unchanged state list it
therefore never returns. -/
def selectOnce (mode : EQueueMode) (states : List CState)
    (includeIds excludeIds : List String) (routineIdx : Nat) :
    Option (CState × List CState × Nat) :=
  let acc := acceptedClients states includeIds excludeIds
  let idx? : Option Nat :=
    match mode with
    | .PICK_ZERO => findIdxOpt (fun c => c.queueRemaining == 0 && !c.locked && c.id != "") acc
    | .PICK_LOWEST => idxOfMin (acc.map (·.queueRemaining))
    | .PICK_ROUTINE => if acc.isEmpty then none else some (routineIdx % acc.length)
  let routineIdx' :=
    match mode with
    | .PICK_ROUTINE => if acc.isEmpty then routineIdx else (routineIdx + 1) % acc.length
    | _ => routineIdx
  match idx? with
  | none => none
  | some i =>
    match acc[i]? with
    | none => none
    | some c0 =>
      match findIdxOpt (fun s => s.id == c0.id) states with
      | none => none
      | some trueIdx =>
        match states[trueIdx]? with
        | none => none
        | some sel =>
          some (sel, states.set trueIdx { sel with locked := true }, routineIdx')

/-! ## ComfyPool.run failover (part_009 lines 252-345) -/

/-- Effective maxRetries: `options?.maxRetries || onlineClients.length`
(part_009 line 290); JS `||` replaces the falsy 0 (and undefined) by the
default. -/
def effMaxRetries (opt : Option Nat) (onlineCount : Nat) : Nat :=
  match opt with
  | some v => if v ≠ 0 then v else onlineCount
  | none => onlineCount

/-- Effective retryDelay: `options?.retryDelay || 1000` (part_009 line
284). -/
def effRetryDelay (opt : Option Nat) : Nat :=
  match opt with
  | some v => if v ≠ 0 then v else 1000
  | none => 1000

/-- The tryExecute recursion of ComfyPool.run (part_009 lines 293-340)
specialised to a job whose fn always throws, under a client-state
environment that only changes through selection's own locking: each
round claims a client (through getAvailableClient; `none` blocks
forever, ending the invocation sequence), invokes fn on it, and retries
with the client's id appended to the exclude list while
`attempt < maxRetries` and `excludedIds.length < onlineClients.length`.
Returns the ids the job's fn is invoked on, in order.  The fuel is
always sufficient since rounds stop at attempt = maxRetries. -/
def tryExecuteSim (mode : EQueueMode) (includeIds : List String)
    (maxRetries onlineCount : Nat) (enableFailover : Bool) :
    Nat → List CState → Nat → Nat → List String → List String
  | 0, _, _, _, _ => []
  | fuel + 1, states, ri, attempt, exc =>
    match selectOnce mode states includeIds exc ri with
    | none => []
    | some (c, states', ri') =>
      c.id ::
        (if enableFailover ∧ attempt < maxRetries ∧ exc.length < onlineCount then
          tryExecuteSim mode includeIds maxRetries onlineCount enableFailover
            fuel states' ri' (attempt + 1) (exc ++ [c.id])
        else [])

/-- ComfyPool.run with an always-failing job: the snapshot of online
clients fixes onlineCount and the effective maxRetries, and the attempt
loop starts at attempt 1 with the caller's excludeIds. -/
def runInvocations (mode : EQueueMode) (states : List CState)
    (includeIds excludeIds : List String) (optMaxRetries : Option Nat)
    (enableFailover : Bool) (ri : Nat) : List String :=
  let onlineCount := (states.filter (·.online)).length
  let maxRetries := effMaxRetries optMaxRetries onlineCount
  tryExecuteSim mode includeIds maxRetries onlineCount enableFailover
    (maxRetries + 1) states ri 1 excludeIds

/-! ## ComfyApi: binary streaming frames (part_005 lines 1087-1113) -/

/-- DataView.getUint32 with big-endian byte order over a byte list
(bytes are reduced modulo 256; the frames of interest are in bounds, a
missing byte reads as 0). -/
def getUint32 (bytes : List Nat) (off : Nat) : Nat :=
  (bytes.getD off 0 % 256) * 16777216 + (bytes.getD (off + 1) 0 % 256) * 65536 +
    (bytes.getD (off + 2) 0 % 256) * 256 + (bytes.getD (off + 3) 0 % 256)

/-- The b_preview event payload: decoded MIME and image bytes. -/
structure BPreview where
  mime : String
  payload : List Nat
deriving Repr, DecidableEq

/-- The binary branch of socket.client.onmessage (part_005 lines
1090-1113): the first big-endian word selects the event type; type 1 is
a preview image whose MIME is switched on `view.getUint32(0)` again
(the source reads offset 0 a second time, part_005 line 1096) with 2
mapping to PNG and everything else to the JPEG default, and whose
payload is the bytes from offset 8 on.  Any other event type throws and
is logged, producing no event. -/
def decodeBinaryFrame (bytes : List Nat) : Option BPreview :=
  let eventType := getUint32 bytes 0
  if eventType = 1 then
    let imageType := getUint32 bytes 0
    let imageMime := if imageType = 2 then "image/png" else "image/jpeg"
    some ⟨imageMime, bytes.drop 8⟩
  else
    none

/-- Modelled from the spec: the decoder the specification describes,
whose MIME word is the second big-endian word (offset 4). -/
def decodeBinaryFrameSpec (bytes : List Nat) : Option BPreview :=
  let eventType := getUint32 bytes 0
  if eventType = 1 then
    let imageType := getUint32 bytes 4
    let imageMime := if imageType = 2 then "image/png" else "image/jpeg"
    some ⟨imageMime, bytes.drop 8⟩
  else
    none

/-! ## ComfyApi: reconnect backoff (part_005 lines 951-1022) -/

/-- MAX_ATTEMPTS of reconnectWs (part_005 line 958). -/
def maxReconnectAttempts : Nat := 10

/-- exponentialDelay of attempt n (part_005 line 995):
min(BASE_DELAY * 2^(n-1), MAX_DELAY). -/
def expDelay (n : Nat) : ℚ := min (1000 * 2 ^ (n - 1)) 15000

/-- The retry delay of attempt n given the drawn Math.random() value r
(part_005 lines 998-999): jitter = exponentialDelay * 0.3 * (r - 0.5),
delay = max(1000, exponentialDelay + jitter). -/
def reconnectDelay (n : Nat) (r : ℚ) : ℚ :=
  max 1000 (expDelay n + expDelay n * (3 / 10) * (r - 1 / 2))

/-- The clamp named by the specification: clamp(1s * 2^(n-1), 1s, 15s). -/
def clampSpec (n : Nat) : ℚ := max 1000 (min (1000 * 2 ^ (n - 1)) 15000)

/-- The tryReconnect recursion under persistent connection failure
(part_005 lines 966-1021): each round increments the attempt counter;
while attempt < MAX_ATTEMPTS another round is scheduled, otherwise a
single reconnection_failed event is emitted.  Returns (number of
attempts made, number of reconnection_failed events). -/
def tryReconnectSim : Nat → Nat → Nat × Nat
  | 0, _ => (0, 0)
  | fuel + 1, attempt =>
      let a2 := attempt + 1
      if a2 < maxReconnectAttempts then
        let r := tryReconnectSim fuel a2
        (r.1 + 1, r.2)
      else
        (1, 1)

/-! ## ComfyApi: destroy and fetchApi (part_005 lines 169-239, 302-311) -/

/-- The client-side fields destroy touches. -/
structure ApiState where
  destroyed : Bool
  wsTimerActive : Bool
  pollingActive : Bool
  socketPresent : Bool
  listenerCount : Nat
deriving Repr, DecidableEq

/-- destroy (part_005 lines 169-239): re-entry returns immediately once
the `_destroyed` flag is set (the only write to the flag in the source
sets it to true); a first call clears timers, closes the socket and
removes all listeners. -/
def ComfyApi.destroy (s : ApiState) : ApiState :=
  if s.destroyed then s
  else
    { destroyed := true
    , wsTimerActive := false
    , pollingActive := false
    , socketPresent := false
    , listenerCount := 0 }

/-- What a call to fetchApi does. -/
inductive FetchOutcome where
  | request (url : String)
  | errDestroyed
deriving Repr, DecidableEq

/-- fetchApi (part_005 lines 302-311): builds credential headers, sets
cors mode and performs the fetch against apiHost ++ route.  The function
contains no test of the destroyed flag, so it behaves identically on a
destroyed client. -/
def ComfyApi.fetchApi (_s : ApiState) (apiHost route : String) : FetchOutcome :=
  .request (apiHost ++ route)

/-- Operations relevant to the destroyed flag: destroy and fetchApi are
the cited operations; no operation in the source ever writes the flag
back to false. -/
inductive ApiOp where
  | destroy
  | fetch (route : String)
deriving Repr, DecidableEq

/-- Effect of one operation on the client state: fetchApi writes none of
these fields. -/
def applyApiOp (s : ApiState) : ApiOp → ApiState
  | .destroy => ComfyApi.destroy s
  | .fetch _ => s

/-! ## ComfyApi: lastActivity (part_005 lines 302-311, 1024-1026) -/

/-- The places a timestamp reaches lastActivity, each carrying the
Date.now() reading at that moment: resetLastActivity is called from
socket.client.onmessage (line 1088), socket.client.onopen (line 1065)
and the polling fallback's successful status poll (line 1191).  A
successful plain HTTP response through fetchApi performs no reset
(lines 302-311 contain no resetLastActivity call). -/
inductive ActivityEvent where
  | wsFrame (now : Int)
  | wsOpen (now : Int)
  | pollSuccess (now : Int)
  | httpSuccess (now : Int)
deriving Repr, DecidableEq

/-- The Date.now() reading carried by an event. -/
def ActivityEvent.time : ActivityEvent → Int
  | .wsFrame t => t
  | .wsOpen t => t
  | .pollSuccess t => t
  | .httpSuccess t => t

/-- Effect of one event on lastActivity. -/
def applyActivity (lastActivity : Int) : ActivityEvent → Int
  | .wsFrame t => t
  | .wsOpen t => t
  | .pollSuccess t => t
  | .httpSuccess _ => lastActivity

/-! ## Helper lemmas -/

theorem applyApiOp_destroyed {s : ApiState} (h : s.destroyed = true) (op : ApiOp) :
    (applyApiOp s op).destroyed = true := by
  cases op with
  | destroy => simp [applyApiOp, ComfyApi.destroy, h]
  | fetch route => simpa [applyApiOp] using h

theorem foldl_applyApiOp_destroyed {s : ApiState} (h : s.destroyed = true) :
    ∀ ops : List ApiOp, (ops.foldl applyApiOp s).destroyed = true := by
  intro ops
  induction ops generalizing s with
  | nil => simpa using h
  | cons op rest ih => exact ih (applyApiOp_destroyed h op)

theorem chain_le_of_le {a b : Int} {l : List Int} (hab : a ≤ b)
    (h : List.Chain (· ≤ ·) b l) : List.Chain (· ≤ ·) a l := by
  cases h with
  | nil => exact List.Chain.nil
  | cons hR hc => exact List.Chain.cons (le_trans hab hR) hc

theorem scanl_head_cons (f : Int → ActivityEvent → Int) (c : Int) (l : List ActivityEvent) :
    ∃ t, List.scanl f c l = c :: t := by
  cases l <;> simp [List.scanl]

theorem applyActivity_cases (la : Int) (ev : ActivityEvent) :
    applyActivity la ev = ev.time ∨ applyActivity la ev = la := by
  cases ev <;> simp [applyActivity, ActivityEvent.time]

/-! ## Claim theorems -/

/-- C10: in ComfyPool.run, passing 0 for retryDelay or maxRetries is
indistinguishable from omitting the option: the JS `||` defaults map the
falsy 0 to 1000 ms and to the number of online clients respectively. -/
theorem run_option_zero_equals_omitted (onlineCount : Nat) :
    effRetryDelay (some 0) = effRetryDelay none ∧
      effRetryDelay none = 1000 ∧
      effMaxRetries (some 0) onlineCount = effMaxRetries none onlineCount ∧
      effMaxRetries none onlineCount = onlineCount := by
  refine ⟨by simp [effRetryDelay], rfl, by simp [effMaxRetries], rfl⟩

/-- C6: on the binary preview frame whose first big-endian word is 1 and
whose second big-endian word is 2, the code still emits image/jpeg,
because line 1096 of part_005 reads the event-type word at offset 0
again instead of the MIME word at offset 4; the decoder the
specification describes yields image/png on the same frame.  The
payload from offset 8 on is emitted as described. -/
theorem preview_frame_mime_word_ignored :
    decodeBinaryFrame [0, 0, 0, 1, 0, 0, 0, 2, 9, 9] = some ⟨"image/jpeg", [9, 9]⟩ ∧
      decodeBinaryFrameSpec [0, 0, 0, 1, 0, 0, 0, 2, 9, 9] = some ⟨"image/png", [9, 9]⟩ ∧
      decodeBinaryFrame [0, 0, 0, 1, 0, 0, 0, 2, 9, 9] ≠
        decodeBinaryFrameSpec [0, 0, 0, 1, 0, 0, 0, 2, 9, 9] := by
  refine ⟨by decide, by decide, by decide⟩

/-- C8 counterexample: after destroy, fetchApi still performs the HTTP
request exactly as on a live client instead of failing with
ErrDestroyed. -/
theorem destroyed_fetch_executes_normally :
    ComfyApi.fetchApi (ComfyApi.destroy ⟨false, true, true, true, 3⟩) "http://h" "/prompt" =
        .request "http://h/prompt" ∧
      FetchOutcome.request "http://h/prompt" ≠ .errDestroyed := by
  refine ⟨rfl, by decide⟩

/-- C8 amended: the destroyed flag is monotonic (no operation resets
it) and destroy is idempotent, but subsequent operations are not
refused: fetchApi contains no destroyed test and performs the request
regardless of the flag. -/
theorem destroyed_monotonic_fetch_unguarded (s s2 : ApiState) (ops : List ApiOp)
    (host route : String) :
    ((ops.foldl applyApiOp (ComfyApi.destroy s)).destroyed = true) ∧
      ComfyApi.destroy (ComfyApi.destroy s) = ComfyApi.destroy s ∧
      ComfyApi.fetchApi s2 host route = .request (host ++ route) := by
  refine ⟨?_, ?_, rfl⟩
  · apply foldl_applyApiOp_destroyed
    by_cases h : s.destroyed = true <;> simp [ComfyApi.destroy, h]
  · by_cases h : s.destroyed = true <;> simp [ComfyApi.destroy, h]

/-- C9 counterexample: a successful plain HTTP response does not refresh
lastActivity; with lastActivity 5 and a successful response at time 10
the field keeps the value 5. -/
theorem http_success_does_not_refresh_activity :
    applyActivity 5 (.httpSuccess 10) = 5 ∧ (5 : Int) ≠ 10 := by
  refine ⟨rfl, by decide⟩

/-- C9 amended: lastActivity is refreshed on every received streaming
frame, on socket open and on every successful polling-fallback status
response, but not by plain successful HTTP responses through fetchApi;
under a non-decreasing clock the successive lastActivity values are
monotonically non-decreasing. -/
theorem activity_refresh_and_monotone (la0 : Int) (evs : List ActivityEvent)
    (hclock : List.Chain (· ≤ ·) la0 (evs.map ActivityEvent.time)) :
    (∀ la t, applyActivity la (.wsFrame t) = t ∧ applyActivity la (.wsOpen t) = t ∧
        applyActivity la (.pollSuccess t) = t ∧ applyActivity la (.httpSuccess t) = la) ∧
      List.Chain' (· ≤ ·) (evs.scanl applyActivity la0) := by
  refine ⟨fun la t => ⟨rfl, rfl, rfl, rfl⟩, ?_⟩
  induction evs generalizing la0 with
  | nil => simp
  | cons ev rest ih =>
    simp only [List.map_cons] at hclock
    cases hclock with
    | cons hR hc =>
      have hla : la0 ≤ applyActivity la0 ev := by
        rcases applyActivity_cases la0 ev with h | h <;> rw [h]
        exact hR
      have hc2 : List.Chain (· ≤ ·) (applyActivity la0 ev) (rest.map ActivityEvent.time) := by
        rcases applyActivity_cases la0 ev with h | h <;> rw [h]
        · exact hc
        · exact chain_le_of_le hR hc
      have htail := ih (applyActivity la0 ev) hc2
      rw [List.scanl]
      obtain ⟨t, ht⟩ := scanl_head_cons applyActivity (applyActivity la0 ev) rest
      rw [ht]
      rw [ht] at htail
      exact List.Chain'.cons hla htail

/-- Witness for the activity theorem at a concrete event trace. -/
theorem activity_refresh_and_monotone_witness :
    List.Chain' (· ≤ ·)
      (([ActivityEvent.wsFrame 1, ActivityEvent.httpSuccess 2,
          ActivityEvent.pollSuccess 3]).scanl applyActivity 0) :=
  (activity_refresh_and_monotone 0
    [ActivityEvent.wsFrame 1, ActivityEvent.httpSuccess 2, ActivityEvent.pollSuccess 3]
    (by norm_num [List.chain_cons, ActivityEvent.time])).2

/-- C5 counterexample: setInputNode assigns the binding on the receiver
before cloning, so the template it was invoked on is observably changed
afterwards. -/
theorem setInputNode_mutates_receiver :
    ((mkPromptBuilder (JVal.obj []) ["ckpt"] []).setInputNode "ckpt"
        (.one "4.inputs.ckpt_name")).self ≠
      mkPromptBuilder (JVal.obj []) ["ckpt"] [] := by
  decide

/-- C5 amended: bypass and reinstate are copy-on-write (the receiver is
unchanged and a new value is returned); setInputNode, appendInputNode
and setOutputNode mutate the receiver's key maps and return a clone
equal to the mutated receiver; input mutates the receiver's workflow in
place and returns the receiver itself; the constructor stores the
caller's workflow as an independent deep copy. -/
theorem template_ops_mutation_semantics (b : PromptBuilder) (inp outp k2 : String)
    (key : Binding) (nodes : List String) (ikey : String) (v : Option JVal)
    (os : Option OSType) (w : JVal) (inKeys outKeys : List String) :
    (b.bypass nodes).self = b ∧
      (b.reinstate nodes).self = b ∧
      (b.setInputNode inp key).ret = .ok (b.setInputNode inp key).self ∧
      (b.appendInputNode inp key).ret = .ok (b.appendInputNode inp key).self ∧
      (b.setOutputNode outp k2).ret = .ok (b.setOutputNode outp k2).self ∧
      ((b.input ikey v os).ret = .ok (b.input ikey v os).self ∨
        ∃ e, (b.input ikey v os).ret = .error e) ∧
      (mkPromptBuilder w inKeys outKeys).prompt = w := by
  refine ⟨rfl, rfl, rfl, rfl, rfl, ?_, rfl⟩
  cases v with
  | none => exact Or.inl rfl
  | some v0 =>
    dsimp only [PromptBuilder.input]
    split
    · exact Or.inr ⟨_, rfl⟩
    · split
      · exact Or.inl rfl
      · exact Or.inr ⟨_, rfl⟩

/-- C1 counterexample: with the binding path 4.prototype.ckpt_name,
whose middle segment is the reserved name prototype, input does not fail
with an invalid-path error: it succeeds and writes through the prototype
segment, changing the workflow. -/
theorem input_prototype_segment_not_refused :
    (PromptBuilder.input
          { prompt := .obj [("4", .obj [("inputs", .obj [("ckpt_name", .str "old")])])]
          , mapInputKeys := [("ckpt", some (.one "4.prototype.ckpt_name"))]
          , mapOutputKeys := [("img", none)]
          , bypassNodes := [] } "ckpt" (some (.str "v")) none).ret =
        .ok (PromptBuilder.input
          { prompt := .obj [("4", .obj [("inputs", .obj [("ckpt_name", .str "old")])])]
          , mapInputKeys := [("ckpt", some (.one "4.prototype.ckpt_name"))]
          , mapOutputKeys := [("img", none)]
          , bypassNodes := [] } "ckpt" (some (.str "v")) none).self ∧
      (PromptBuilder.input
          { prompt := .obj [("4", .obj [("inputs", .obj [("ckpt_name", .str "old")])])]
          , mapInputKeys := [("ckpt", some (.one "4.prototype.ckpt_name"))]
          , mapOutputKeys := [("img", none)]
          , bypassNodes := [] } "ckpt" (some (.str "v")) none).self.prompt ≠
        .obj [("4", .obj [("inputs", .obj [("ckpt_name", .str "old")])])] := by
  refine ⟨by decide, by decide⟩

/-- C1 amended: only inputRaw performs a reserved-name check, refusing
with the invalid-key error, and leaving the template unchanged, exactly
when the entire key string equals __proto__, constructor or prototype;
setInputNode accepts any path without validation, and inputRaw silently
skips __proto__ and constructor traversal segments instead of failing
(shown concretely: key a.__proto__.c writes at a.c). -/
theorem inputRaw_reserved_whole_key_iff (b : PromptBuilder) (key path : String)
    (v : Option JVal) (os : Option OSType) :
    (((b.inputRaw key v os).ret = .error (.invalidKey key) ∧ (b.inputRaw key v os).self = b) ↔
        (key = "__proto__" ∨ key = "constructor" ∨ key = "prototype")) ∧
      (b.setInputNode key (.one path)).ret = .ok (b.setInputNode key (.one path)).self ∧
      (PromptBuilder.inputRaw ⟨.obj [], [], [], []⟩ "a.__proto__.c" (some (.num 7)) none).ret =
        .ok ⟨.obj [("a", .obj [("c", .num 7)])], [], [], []⟩ := by
  refine ⟨⟨?_, ?_⟩, rfl, by decide⟩
  · intro h
    by_contra hk
    rw [PromptBuilder.inputRaw.eq_def, if_neg hk] at h
    rcases v with _ | v0
    · exact Except.noConfusion (h.1.symm.trans rfl)
    · dsimp only at h
      split at h
      · split at h
        · exact Except.noConfusion h.1
        · exact JSError.noConfusion (Except.error.inj h.1)
      · split at h
        · exact Except.noConfusion h.1
        · exact JSError.noConfusion (Except.error.inj h.1)
  · intro hk
    rw [PromptBuilder.inputRaw.eq_def, if_pos hk]
    exact ⟨rfl, rfl⟩

theorem mem_of_getElemOpt {α : Type} {l : List α} {i : Nat} {a : α}
    (h : l[i]? = some a) : a ∈ l := by
  obtain ⟨hlt, hEq⟩ := List.getElem?_eq_some_iff.mp h
  exact hEq ▸ List.getElem_mem hlt

theorem findIdxOpt_spec {α : Type} (p : α → Bool) :
    ∀ (l : List α) (i : Nat), findIdxOpt p l = some i → ∃ x, l[i]? = some x ∧ p x := by
  intro l
  induction l with
  | nil => intro i h; simp [findIdxOpt] at h
  | cons a t ih =>
    intro i h
    by_cases hpa : p a
    · simp only [findIdxOpt, if_pos hpa, Option.some.injEq] at h
      subst h
      exact ⟨a, by simp, hpa⟩
    · simp only [findIdxOpt, if_neg hpa, Option.map_eq_some'] at h
      obtain ⟨j, hj, rfl⟩ := h
      obtain ⟨x, hx, hpx⟩ := ih j hj
      exact ⟨x, by simpa using hx, hpx⟩

theorem mem_pushJobByWeight {q : List JobItem} {item x : JobItem}
    (h : x ∈ pushJobByWeight q item) : x = item ∨ x ∈ q := by
  induction q with
  | nil => simpa [pushJobByWeight] using h
  | cons j rest ih =>
    by_cases hw : item.weight < j.weight
    · rw [pushJobByWeight, if_pos hw] at h
      rcases List.mem_cons.mp h with rfl | h2
      · exact Or.inl rfl
      · exact Or.inr h2
    · rw [pushJobByWeight, if_neg hw] at h
      rcases List.mem_cons.mp h with rfl | h2
      · exact Or.inr (List.mem_cons_self _ _)
      · rcases ih h2 with h3 | h3
        · exact Or.inl h3
        · exact Or.inr (List.mem_cons_of_mem _ h3)

theorem pushJobByWeight_pairwise {q : List JobItem} (item : JobItem)
    (h : q.Pairwise (fun a b => a.weight ≤ b.weight)) :
    (pushJobByWeight q item).Pairwise (fun a b => a.weight ≤ b.weight) := by
  induction q with
  | nil => simp [pushJobByWeight]
  | cons j rest ih =>
    rw [List.pairwise_cons] at h
    obtain ⟨hj, hrest⟩ := h
    by_cases hw : item.weight < j.weight
    · rw [pushJobByWeight, if_pos hw, List.pairwise_cons]
      refine ⟨?_, List.pairwise_cons.mpr ⟨hj, hrest⟩⟩
      intro b hb
      rcases List.mem_cons.mp hb with rfl | hb2
      · exact le_of_lt hw
      · exact le_trans (le_of_lt hw) (hj b hb2)
    · rw [pushJobByWeight, if_neg hw, List.pairwise_cons]
      refine ⟨?_, ih hrest⟩
      intro b hb
      rcases mem_pushJobByWeight hb with rfl | hb2
      · exact le_of_not_lt hw
      · exact hj b hb2

theorem applyQOp_pairwise {maxSize : Nat} {q : List JobItem} (op : QOp)
    (h : q.Pairwise (fun a b => a.weight ≤ b.weight)) :
    (applyQOp maxSize q op).Pairwise (fun a b => a.weight ≤ b.weight) := by
  cases op with
  | push item =>
    rw [applyQOp]
    by_cases hf : maxSize ≤ q.length
    · rwa [if_pos hf]
    · rw [if_neg hf]; exact pushJobByWeight_pairwise item h
  | shift => exact h.sublist (List.tail_sublist q)

theorem foldl_applyQOp_pairwise (maxSize : Nat) :
    ∀ (ops : List QOp) (q : List JobItem),
      q.Pairwise (fun a b => a.weight ≤ b.weight) →
      (ops.foldl (applyQOp maxSize) q).Pairwise (fun a b => a.weight ≤ b.weight) := by
  intro ops
  induction ops with
  | nil => intro q h; simpa using h
  | cons op rest ih => intro q h; exact ih _ (applyQOp_pairwise op h)

/-- C2 counterexample: under PICK_LOWEST the locked flag is not
consulted; a pool whose only online client is locked still selects that
client. -/
theorem pick_lowest_selects_locked_client :
    selectOnce .PICK_LOWEST [⟨"a", 5, true, true⟩] [] [] 0 =
        some (⟨"a", 5, true, true⟩, [⟨"a", 5, true, true⟩], 0) ∧
      (CState.mk "a" 5 true true).locked = true := by
  refine ⟨by decide, rfl⟩

/-- C2 amended: only under PICK_ZERO does selection test the locked
flag, and there, provided client ids are pairwise distinct, the selected
client is never locked; PICK_LOWEST and PICK_ROUTINE ignore the flag
and can select a locked client. -/
theorem pick_zero_never_selects_locked (states : List CState)
    (includeIds excludeIds : List String) (ri : Nat) (c : CState)
    (states2 : List CState) (ri2 : Nat)
    (hids : (states.map CState.id).Nodup)
    (hsel : selectOnce .PICK_ZERO states includeIds excludeIds ri = some (c, states2, ri2)) :
    c.locked = false := by
  unfold selectOnce at hsel
  dsimp only at hsel
  split at hsel
  · exact Option.noConfusion hsel
  case _ i hidx =>
    split at hsel
    · exact Option.noConfusion hsel
    case _ c0 hc0 =>
      split at hsel
      · exact Option.noConfusion hsel
      case _ trueIdx htrue =>
        split at hsel
        · exact Option.noConfusion hsel
        case _ sel hget =>
          obtain ⟨x, hx, hpx⟩ := findIdxOpt_spec _ _ _ hidx
          rw [hc0] at hx
          have hxc0 : x = c0 := by injection hx with h; exact h.symm
          rw [hxc0] at hpx
          obtain ⟨y, hy, hpy⟩ := findIdxOpt_spec _ _ _ htrue
          rw [hget] at hy
          have hysel : y = sel := by injection hy with h; exact h.symm
          rw [hysel] at hpy
          have hcsel : c = sel := by
            injection hsel with h1
            injection h1 with h2 h3
            exact h2.symm
          have hc0mem : c0 ∈ states :=
            List.mem_of_mem_filter (mem_of_getElemOpt hc0)
          have hselmem : sel ∈ states := mem_of_getElemOpt hget
          have hideq : sel.id = c0.id := by simpa using hpy
          have hsame : sel = c0 :=
            List.inj_on_of_nodup_map hids hselmem hc0mem hideq
          have hlock : c0.locked = false := by
            simp only [Bool.and_eq_true, beq_iff_eq, Bool.not_eq_true'] at hpx
            exact hpx.1.2
          rw [hcsel, hsame, hlock]

/-- Witness for the PICK_ZERO lock theorem at a concrete pool state. -/
theorem pick_zero_never_selects_locked_witness :
    (CState.mk "a" 0 false true).locked = false :=
  pick_zero_never_selects_locked [⟨"a", 0, false, true⟩] [] [] 0 ⟨"a", 0, false, true⟩
    [⟨"a", 0, true, true⟩] 0 (by decide) (by decide)

/-- C4: the job queue is non-decreasing in weight after any sequence of
claim-side insertions and dispatcher shifts, and pushJobByWeight places
the new item right after the maximal prefix of items with weight less
than or equal to its own, i.e. immediately before the first item of
strictly greater weight (at the end if none), so equal-weight items keep
submission order. -/
theorem jobQueue_sorted_and_insertion (maxSize : Nat) (ops : List QOp)
    (q : List JobItem) (item : JobItem) :
    (runQOps maxSize ops).Pairwise (fun a b => a.weight ≤ b.weight) ∧
      pushJobByWeight q item =
        q.takeWhile (fun j => decide (j.weight ≤ item.weight)) ++
          item :: q.dropWhile (fun j => decide (j.weight ≤ item.weight)) := by
  constructor
  · exact foldl_applyQOp_pairwise maxSize ops [] (by simp)
  · induction q with
    | nil => simp [pushJobByWeight]
    | cons j rest ih =>
      by_cases hw : item.weight < j.weight
      · have hb : decide (j.weight ≤ item.weight) = false :=
          decide_eq_false (not_le_of_lt hw)
        rw [pushJobByWeight, if_pos hw, List.takeWhile_cons, List.dropWhile_cons, hb]
        simp
      · have hb : decide (j.weight ≤ item.weight) = true :=
          decide_eq_true (le_of_not_lt hw)
        rw [pushJobByWeight, if_neg hw, ih, List.takeWhile_cons, List.dropWhile_cons, hb]
        simp

theorem expDelay_ge (n : Nat) : (1000 : ℚ) ≤ expDelay n := by
  unfold expDelay
  have h2 : (1 : ℚ) ≤ 2 ^ (n - 1) := one_le_pow₀ (by norm_num)
  exact le_min (by nlinarith) (by norm_num)

theorem expDelay_le (n : Nat) : expDelay n ≤ 15000 := min_le_right _ _

theorem expDelay_two_le {n : Nat} (hn : 2 ≤ n) : (2000 : ℚ) ≤ expDelay n := by
  unfold expDelay
  have h1 : 1 ≤ n - 1 := by omega
  have h2 : (2 : ℚ) ≤ 2 ^ (n - 1) := by
    calc (2 : ℚ) = 2 ^ 1 := by norm_num
    _ ≤ 2 ^ (n - 1) := pow_le_pow_right₀ (by norm_num) h1
  exact le_min (by nlinarith) (by norm_num)

/-- C7: for every reconnection attempt the computed retry delay equals
the clamped exponential base delay times a jitter factor of the form
1 plus or minus 3/10 of a value in the unit interval; the delay is never
below 1000 ms and never above 15000 ms scaled by such a factor, and the
attempt cap is 10, with exactly one reconnection_failed emission under
persistent failure. -/
theorem reconnect_backoff_formula (n : Nat) (r : ℚ) (h0 : 0 ≤ r) (h1 : r ≤ 1) :
    (∃ s : ℚ, 0 ≤ s ∧ s ≤ 1 ∧
        (reconnectDelay n r = clampSpec n * (1 + 3 / 10 * s) ∨
          reconnectDelay n r = clampSpec n * (1 - 3 / 10 * s))) ∧
      1000 ≤ reconnectDelay n r ∧
      reconnectDelay n r ≤ 15000 * (13 / 10) ∧
      maxReconnectAttempts = 10 ∧
      tryReconnectSim maxReconnectAttempts 0 = (10, 1) := by
  have hE1 : (1000 : ℚ) ≤ expDelay n := expDelay_ge n
  have hE2 : expDelay n ≤ 15000 := expDelay_le n
  have hclamp : clampSpec n = expDelay n := by
    rw [clampSpec, expDelay]
    exact max_eq_right (expDelay_ge n)
  by_cases hr : 1 / 2 ≤ r
  · have hinner : expDelay n ≤ expDelay n + expDelay n * (3 / 10) * (r - 1 / 2) := by
      nlinarith
    have hmax : reconnectDelay n r = expDelay n + expDelay n * (3 / 10) * (r - 1 / 2) := by
      unfold reconnectDelay
      exact max_eq_right (le_trans hE1 hinner)
    refine ⟨⟨r - 1 / 2, by nlinarith, by nlinarith, Or.inl ?_⟩, ?_, ?_, rfl, by decide⟩
    · rw [hmax, hclamp]; ring
    · rw [hmax]; nlinarith
    · rw [hmax]; nlinarith
  · push_neg at hr
    by_cases hn2 : 2 ≤ n
    · have hE3 : (2000 : ℚ) ≤ expDelay n := expDelay_two_le hn2
      have hinner : (1000 : ℚ) ≤ expDelay n + expDelay n * (3 / 10) * (r - 1 / 2) := by
        nlinarith
      have hmax : reconnectDelay n r = expDelay n + expDelay n * (3 / 10) * (r - 1 / 2) := by
        unfold reconnectDelay
        exact max_eq_right hinner
      refine ⟨⟨1 / 2 - r, by nlinarith, by nlinarith, Or.inr ?_⟩, ?_, ?_, rfl, by decide⟩
      · rw [hmax, hclamp]; ring
      · rw [hmax]; exact hinner
      · rw [hmax]; nlinarith
    · have hEeq : expDelay n = 1000 := by
        have hn1 : n - 1 = 0 := by omega
        rw [expDelay, hn1]
        norm_num
      have hinner : expDelay n + expDelay n * (3 / 10) * (r - 1 / 2) ≤ 1000 := by
        rw [hEeq]; nlinarith
      have hmax : reconnectDelay n r = 1000 := by
        unfold reconnectDelay
        exact max_eq_left hinner
      refine ⟨⟨0, le_refl 0, by norm_num, Or.inl ?_⟩, ?_, ?_, rfl, by decide⟩
      · rw [hmax, hclamp, hEeq]; ring
      · rw [hmax]
      · rw [hmax]; norm_num

/-- Witness for the backoff theorem at attempt 2 with random draw 0. -/
theorem reconnect_backoff_formula_witness :
    1000 ≤ reconnectDelay 2 0 ∧ reconnectDelay 2 0 ≤ 15000 * (13 / 10) :=
  ⟨(reconnect_backoff_formula 2 0 le_rfl (by norm_num)).2.1,
    (reconnect_backoff_formula 2 0 le_rfl (by norm_num)).2.2.1⟩

theorem not_contains_iff {l : List String} {a : String} :
    (!l.contains a) = true ↔ a ∉ l := by
  simp [List.contains]

theorem set_lock_preserves_proj :
    ∀ (states : List CState) (i : Nat) (sel : CState), states[i]? = some sel →
      (states.set i { sel with locked := true }).map (fun s => (s.id, s.online)) =
        states.map (fun s => (s.id, s.online)) := by
  intro states
  induction states with
  | nil => intro i sel h; simp at h
  | cons a t ih =>
    intro i sel h
    cases i with
    | zero =>
      have ha : sel = a := by
        simp only [List.getElem?_cons_zero, Option.some.injEq] at h
        exact h.symm
      subst ha
      simp [List.set]
    | succ k =>
      have hk : t[k]? = some sel := by simpa using h
      simp [List.set, ih k sel hk]

theorem selectTail_empty_include {states : List CState} {exc : List String}
    {c c0 sel : CState} {states2 : List CState} {trueIdx : Nat}
    (hc0 : c0 ∈ acceptedClients states [] exc)
    (htrue : findIdxOpt (fun s => s.id == c0.id) states = some trueIdx)
    (hget : states[trueIdx]? = some sel)
    (hcsel : sel = c)
    (hst2 : states.set trueIdx { sel with locked := true } = states2) :
    c.id ∉ exc ∧ c.id ∈ (states.filter (fun s => s.online)).map CState.id ∧
      states2.map (fun s => (s.id, s.online)) = states.map (fun s => (s.id, s.online)) := by
  obtain ⟨y, hy, hpy⟩ := findIdxOpt_spec _ _ _ htrue
  rw [hget] at hy
  have hysel : y = sel := by injection hy with h2; exact h2.symm
  rw [hysel] at hpy
  have hidsel : sel.id = c0.id := by simpa using hpy
  rw [acceptedClients] at hc0
  obtain ⟨hc0st, hpred⟩ := List.mem_filter.mp hc0
  have honline : c0.online = true := by
    by_contra hno
    rw [Bool.not_eq_true] at hno
    simp [hno] at hpred
  have hnotexc : c0.id ∉ exc := by
    cases exc with
    | nil => simp
    | cons e es =>
      simp only [honline, Bool.not_true, if_false, List.isEmpty_nil,
        List.isEmpty_cons, Bool.not_false, if_true] at hpred
      rw [← not_contains_iff]
      simpa using hpred
  refine ⟨?_, ?_, ?_⟩
  · rw [← hcsel, hidsel]; exact hnotexc
  · rw [← hcsel, hidsel]
    exact List.mem_map.mpr ⟨c0, List.mem_filter.mpr ⟨hc0st, honline⟩, rfl⟩
  · rw [← hst2]
    exact set_lock_preserves_proj states trueIdx sel hget

theorem selectOnce_empty_include {mode : EQueueMode} {states : List CState}
    {exc : List String} {ri : Nat} {c : CState} {states2 : List CState} {ri2 : Nat}
    (h : selectOnce mode states [] exc ri = some (c, states2, ri2)) :
    c.id ∉ exc ∧ c.id ∈ (states.filter (fun s => s.online)).map CState.id ∧
      states2.map (fun s => (s.id, s.online)) = states.map (fun s => (s.id, s.online)) := by
  cases mode with
  | PICK_ZERO =>
    unfold selectOnce at h
    dsimp only at h
    split at h
    · exact Option.noConfusion h
    next i hidx =>
      split at h
      · exact Option.noConfusion h
      next c0 hc0 =>
        split at h
        · exact Option.noConfusion h
        next trueIdx htrue =>
          split at h
          · exact Option.noConfusion h
          next sel hget =>
            injection h with h1
            simp only [Prod.mk.injEq] at h1
            exact selectTail_empty_include (mem_of_getElemOpt hc0) htrue hget h1.1 h1.2.1
  | PICK_LOWEST =>
    unfold selectOnce at h
    dsimp only at h
    split at h
    · exact Option.noConfusion h
    next i hidx =>
      split at h
      · exact Option.noConfusion h
      next c0 hc0 =>
        split at h
        · exact Option.noConfusion h
        next trueIdx htrue =>
          split at h
          · exact Option.noConfusion h
          next sel hget =>
            injection h with h1
            simp only [Prod.mk.injEq] at h1
            exact selectTail_empty_include (mem_of_getElemOpt hc0) htrue hget h1.1 h1.2.1
  | PICK_ROUTINE =>
    unfold selectOnce at h
    dsimp only at h
    split at h
    · exact Option.noConfusion h
    next i hidx =>
      split at h
      · exact Option.noConfusion h
      next c0 hc0 =>
        split at h
        · exact Option.noConfusion h
        next trueIdx htrue =>
          split at h
          · exact Option.noConfusion h
          next sel hget =>
            injection h with h1
            simp only [Prod.mk.injEq] at h1
            exact selectTail_empty_include (mem_of_getElemOpt hc0) htrue hget h1.1 h1.2.1

theorem online_ids_of_proj_eq :
    ∀ {l1 l2 : List CState},
      l1.map (fun s => (s.id, s.online)) = l2.map (fun s => (s.id, s.online)) →
      (l1.filter (fun s => s.online)).map CState.id =
        (l2.filter (fun s => s.online)).map CState.id := by
  intro l1
  induction l1 with
  | nil =>
    intro l2 h
    cases l2 with
    | nil => rfl
    | cons b u => simp at h
  | cons a t ih =>
    intro l2 h
    cases l2 with
    | nil => simp at h
    | cons b u =>
      simp only [List.map_cons, List.cons.injEq, Prod.mk.injEq] at h
      obtain ⟨⟨hid, honl⟩, htu⟩ := h
      by_cases hon : a.online = true
      · rw [List.filter_cons_of_pos hon, List.filter_cons_of_pos (honl ▸ hon)]
        simp only [List.map_cons, hid]
        rw [ih htu]
      · rw [Bool.not_eq_true] at hon
        rw [List.filter_cons_of_neg (by simp [hon]), List.filter_cons_of_neg
          (by simp [← honl, hon])]
        exact ih htu

theorem filter_exclude_append_length :
    ∀ {l : List String} {exc : List String} {a : String}, l.Nodup → a ∈ l → a ∉ exc →
      (l.filter (fun x => !(exc ++ [a]).contains x)).length + 1 ≤
        (l.filter (fun x => !exc.contains x)).length := by
  intro l
  induction l with
  | nil => intro exc a _ hmem; simp at hmem
  | cons b t ih =>
    intro exc a hnd hmem hna
    rw [List.nodup_cons] at hnd
    obtain ⟨hbt, hndt⟩ := hnd
    have hmono : ∀ x : String, (!(exc ++ [a]).contains x) = true → (!exc.contains x) = true := by
      intro x hx
      rw [not_contains_iff] at hx ⊢
      intro hmemx
      exact hx (List.mem_append.mpr (Or.inl hmemx))
    rcases List.mem_cons.mp hmem with rfl | hmt
    · have hp1 : ¬((fun x => !(exc ++ [a]).contains x) a = true) := by
        simp [List.contains]
      have hp2 : (fun x => !exc.contains x) a = true := not_contains_iff.mpr hna
      rw [List.filter_cons_of_neg (p := fun x => !(exc ++ [a]).contains x) hp1,
        List.filter_cons_of_pos (p := fun x => !exc.contains x) hp2]
      have hsub : (t.filter (fun x => !(exc ++ [a]).contains x)).length ≤
          (t.filter (fun x => !exc.contains x)).length :=
        (List.monotone_filter_right t hmono).length_le
      simpa using Nat.add_le_add_right hsub 1
    · have hba : b ≠ a := fun hEq => hbt (hEq ▸ hmt)
      by_cases hb2 : (fun x => !exc.contains x) b = true
      · have hb1 : (fun x => !(exc ++ [a]).contains x) b = true := by
          show (!(exc ++ [a]).contains b) = true
          rw [not_contains_iff]
          intro hmemb
          rcases List.mem_append.mp hmemb with hin | hin
          · exact (not_contains_iff.mp hb2) hin
          · exact hba (by simpa using hin)
        rw [List.filter_cons_of_pos (p := fun x => !(exc ++ [a]).contains x) hb1,
          List.filter_cons_of_pos (p := fun x => !exc.contains x) hb2]
        have hih := ih hndt hmt hna
        simp only [List.length_cons]
        omega
      · have hb1 : ¬((fun x => !(exc ++ [a]).contains x) b = true) := fun hx => hb2 (hmono b hx)
        rw [List.filter_cons_of_neg (p := fun x => !(exc ++ [a]).contains x) hb1,
          List.filter_cons_of_neg (p := fun x => !exc.contains x) hb2]
        exact ih hndt hmt hna

theorem tryExecuteSim_mem_nodup (mode : EQueueMode) (maxRetries onlineCount : Nat)
    (fo : Bool) :
    ∀ (fuel : Nat) (states : List CState) (ri attempt : Nat) (exc : List String),
      (∀ x ∈ tryExecuteSim mode [] maxRetries onlineCount fo fuel states ri attempt exc,
          x ∉ exc) ∧
        (tryExecuteSim mode [] maxRetries onlineCount fo fuel states ri attempt exc).Nodup := by
  intro fuel
  induction fuel with
  | zero =>
    intro states ri attempt exc
    simp [tryExecuteSim]
  | succ f ih =>
    intro states ri attempt exc
    rcases hsel : selectOnce mode states [] exc ri with _ | ⟨c, states2, ri2⟩
    · simp [tryExecuteSim, hsel]
    · obtain ⟨hnx, hmem, hproj⟩ := selectOnce_empty_include hsel
      simp only [tryExecuteSim, hsel]
      by_cases hcond : fo = true ∧ attempt < maxRetries ∧ exc.length < onlineCount
      · rw [if_pos hcond]
        obtain ⟨ihmem, ihnd⟩ := ih states2 ri2 (attempt + 1) (exc ++ [c.id])
        constructor
        · intro x hx
          rcases List.mem_cons.mp hx with rfl | hx2
          · exact hnx
          · intro hxe
            exact ihmem x hx2 (List.mem_append.mpr (Or.inl hxe))
        · rw [List.nodup_cons]
          refine ⟨?_, ihnd⟩
          intro hcmem
          exact ihmem c.id hcmem (List.mem_append.mpr (Or.inr (List.mem_singleton.mpr rfl)))
      · rw [if_neg hcond]
        constructor
        · intro x hx
          rcases List.mem_cons.mp hx with rfl | hx2
          · exact hnx
          · simp at hx2
        · simp

theorem tryExecuteSim_length_filter (mode : EQueueMode) (maxRetries onlineCount : Nat)
    (fo : Bool) :
    ∀ (fuel : Nat) (states : List CState) (ri attempt : Nat) (exc : List String),
      (tryExecuteSim mode [] maxRetries onlineCount fo fuel states ri attempt exc).length ≤
        ((((states.filter (fun s => s.online)).map CState.id).dedup).filter
          (fun x => !exc.contains x)).length := by
  intro fuel
  induction fuel with
  | zero =>
    intro states ri attempt exc
    simp [tryExecuteSim]
  | succ f ih =>
    intro states ri attempt exc
    rcases hsel : selectOnce mode states [] exc ri with _ | ⟨c, states2, ri2⟩
    · simp [tryExecuteSim, hsel]
    · obtain ⟨hnx, hmem, hproj⟩ := selectOnce_empty_include hsel
      have hcD : c.id ∈ ((states.filter (fun s => s.online)).map CState.id).dedup :=
        List.mem_dedup.mpr hmem
      have hDnd : (((states.filter (fun s => s.online)).map CState.id).dedup).Nodup :=
        List.nodup_dedup _
      have hstep := filter_exclude_append_length hDnd hcD hnx
      simp only [tryExecuteSim, hsel]
      by_cases hcond : fo = true ∧ attempt < maxRetries ∧ exc.length < onlineCount
      · rw [if_pos hcond]
        have hrec := ih states2 ri2 (attempt + 1) (exc ++ [c.id])
        have hids : (states2.filter (fun s => s.online)).map CState.id =
            (states.filter (fun s => s.online)).map CState.id :=
          online_ids_of_proj_eq hproj
        rw [hids] at hrec
        simp only [List.length_cons]
        omega
      · rw [if_neg hcond]
        have hpos : c.id ∈ ((((states.filter (fun s => s.online)).map CState.id).dedup).filter
            (fun x => !exc.contains x)) :=
          List.mem_filter.mpr ⟨hcD, not_contains_iff.mpr hnx⟩
        have hlen := List.length_pos.mpr (List.ne_nil_of_mem hpos)
        simpa using hlen

theorem tryExecuteSim_length_retries (mode : EQueueMode) (maxRetries onlineCount : Nat)
    (fo : Bool) :
    ∀ (fuel : Nat) (states : List CState) (ri attempt : Nat) (exc : List String),
      (tryExecuteSim mode [] maxRetries onlineCount fo fuel states ri attempt exc).length ≤
        maxRetries - attempt + 1 := by
  intro fuel
  induction fuel with
  | zero =>
    intro states ri attempt exc
    simp [tryExecuteSim]
  | succ f ih =>
    intro states ri attempt exc
    rcases hsel : selectOnce mode states [] exc ri with _ | ⟨c, states2, ri2⟩
    · simp [tryExecuteSim, hsel]
    · simp only [tryExecuteSim, hsel]
      by_cases hcond : fo = true ∧ attempt < maxRetries ∧ exc.length < onlineCount
      · rw [if_pos hcond]
        have hrec := ih states2 ri2 (attempt + 1) (exc ++ [c.id])
        have hlt := hcond.2.1
        simp only [List.length_cons]
        omega
      · rw [if_neg hcond]
        simp only [List.length_cons, List.length_nil]
        omega

theorem effMaxRetries_eq_zero {opt : Option Nat} {oc : Nat}
    (h : effMaxRetries opt oc = 0) : oc = 0 := by
  cases opt with
  | none => simpa [effMaxRetries] using h
  | some v =>
    by_cases hv : v = 0
    · simpa [effMaxRetries, hv] using h
    · simp [effMaxRetries, hv] at h

/-- C3 counterexample: with includeIds supplied, getAvailableClient's
filter short-circuits past excludeIds, so an always-failing job on two
online clients with includeIds restricted to client a and maxRetries 5
invokes fn three times, all on client a, exceeding the claimed bound
min(maxRetries, online clients) = 2 and re-using an excluded client. -/
theorem failover_includeIds_ignores_excludes :
    runInvocations .PICK_LOWEST [⟨"a", 0, false, true⟩, ⟨"b", 0, false, true⟩]
        ["a"] [] (some 5) true 0 = ["a", "a", "a"] ∧
      min 5 (([(⟨"a", 0, false, true⟩ : CState), ⟨"b", 0, false, true⟩].filter
          (fun s => s.online)).length) <
        (runInvocations .PICK_LOWEST [⟨"a", 0, false, true⟩, ⟨"b", 0, false, true⟩]
          ["a"] [] (some 5) true 0).length := by
  refine ⟨by decide, by decide⟩

/-- C3 amended: with failover enabled and no includeIds filter, an
always-failing job's fn is invoked at most min(maxRetries, number of
online clients) times, the invoked client ids are pairwise distinct, and
no invocation uses a client from the caller's exclude list; when
includeIds is non-empty the exclude list is ignored by selection and
both the bound and the exclusion can fail. -/
theorem failover_bound_empty_include (mode : EQueueMode) (states : List CState)
    (excludeIds : List String) (opt : Option Nat) (ri : Nat) :
    (runInvocations mode states [] excludeIds opt true ri).length ≤
        min (effMaxRetries opt ((states.filter (fun s => s.online)).length))
          ((states.filter (fun s => s.online)).length) ∧
      (runInvocations mode states [] excludeIds opt true ri).Nodup ∧
      ∀ x ∈ runInvocations mode states [] excludeIds opt true ri, x ∉ excludeIds := by
  have hMN := tryExecuteSim_mem_nodup mode
    (effMaxRetries opt ((states.filter (fun s => s.online)).length))
    ((states.filter (fun s => s.online)).length) true
    (effMaxRetries opt ((states.filter (fun s => s.online)).length) + 1) states ri 1 excludeIds
  have hF := tryExecuteSim_length_filter mode
    (effMaxRetries opt ((states.filter (fun s => s.online)).length))
    ((states.filter (fun s => s.online)).length) true
    (effMaxRetries opt ((states.filter (fun s => s.online)).length) + 1) states ri 1 excludeIds
  have hR := tryExecuteSim_length_retries mode
    (effMaxRetries opt ((states.filter (fun s => s.online)).length))
    ((states.filter (fun s => s.online)).length) true
    (effMaxRetries opt ((states.filter (fun s => s.online)).length) + 1) states ri 1 excludeIds
  have hchain : (tryExecuteSim mode []
      (effMaxRetries opt ((states.filter (fun s => s.online)).length))
      ((states.filter (fun s => s.online)).length) true
      (effMaxRetries opt ((states.filter (fun s => s.online)).length) + 1)
      states ri 1 excludeIds).length ≤
      (states.filter (fun s => s.online)).length := by
    calc (tryExecuteSim mode []
        (effMaxRetries opt ((states.filter (fun s => s.online)).length))
        ((states.filter (fun s => s.online)).length) true
        (effMaxRetries opt ((states.filter (fun s => s.online)).length) + 1)
        states ri 1 excludeIds).length ≤
        ((((states.filter (fun s => s.online)).map CState.id).dedup).filter
          (fun x => !excludeIds.contains x)).length := hF
      _ ≤ (((states.filter (fun s => s.online)).map CState.id).dedup).length :=
        List.length_filter_le _ _
      _ ≤ ((states.filter (fun s => s.online)).map CState.id).length :=
        (List.dedup_sublist _).length_le
      _ = (states.filter (fun s => s.online)).length := List.length_map _ _
  unfold runInvocations
  dsimp only
  refine ⟨?_, hMN.2, hMN.1⟩
  refine le_min ?_ hchain
  rcases Nat.eq_zero_or_pos
      (effMaxRetries opt ((states.filter (fun s => s.online)).length)) with hz | hp
  · have hoc := effMaxRetries_eq_zero hz
    rw [hz] at hchain ⊢
    rw [hoc] at hchain ⊢
    exact hchain
  · omega

/-- Witness for the failover bound theorem at a concrete pool. -/
theorem failover_bound_empty_include_witness :
    ("a" : String) ∉ ["z"] :=
  (failover_bound_empty_include .PICK_LOWEST
      [⟨"a", 0, false, true⟩, ⟨"b", 0, false, true⟩] ["z"] (some 5) 0).2.2 "a" (by decide)
